import Mathlib

/-!
Verification development for the display-mode negotiation subsystem of
`xbmc/windowing/WinSystem.cpp`: the resolution catalog (dedup + sort),
refresh-rate collection and selection, the render-loop participant registry,
and HDR status probing.  C++ machine values are embedded as `Int`/`Nat`
(bit masks on `Nat` via `&&&`) and the `float` refresh rates as `ℚ`, since
every operation the code performs on them (copy, exact comparison,
subtraction, absolute value) is exact on the literals involved.
-/

/-- Modelled from the spec: the presentation-flag constants come from a header
that is not part of this source file; the spec only fixes that the mode mask
retains the interlace and stereo-encoding bits. Bit values follow the upstream
header. -/
def D3DPRESENTFLAG_INTERLACED : Nat := 1

/-- Stereo side-by-side presentation flag bit. -/
def D3DPRESENTFLAG_MODE3DSBS : Nat := 8

/-- Stereo top-bottom presentation flag bit. -/
def D3DPRESENTFLAG_MODE3DTB : Nat := 16

/-- Modelled from the spec: mask of the mode flags significant for
uniqueness/matching (interlace + stereo encoding bits only). -/
def D3DPRESENTFLAG_MODEMASK : Nat :=
  D3DPRESENTFLAG_INTERLACED ||| D3DPRESENTFLAG_MODE3DSBS ||| D3DPRESENTFLAG_MODE3DTB

/-- Modelled from the spec: the RESOLUTION enum lives in a header not in this
source file; the spec fixes only that index 0 is reserved (never scanned) and
that the current-desktop slot sits at a fixed positive index, with custom
modes following it. The numeric values follow the upstream enum. -/
def RES_DESKTOP : Nat := 16

/-- First index of custom/detected modes, directly after the desktop slot. -/
def RES_CUSTOM : Nat := RES_DESKTOP + 1

/-- The fields of `RESOLUTION_INFO` that this translation unit reads. -/
structure RESOLUTION_INFO where
  iScreenWidth : Int
  iScreenHeight : Int
  dwFlags : Nat
  fRefreshRate : ℚ
deriving DecidableEq

instance : Inhabited RESOLUTION_INFO := ⟨⟨0, 0, 0, 0⟩⟩

/-- The display-settings store (`CDisplaySettings`) supplies records by index;
we embed it as a list indexed from 0. -/
def GetResolutionInfo (store : List RESOLUTION_INFO) (idx : Nat) : RESOLUTION_INFO :=
  store.getD idx default

/-- Embeds `RESOLUTION_WHR {int width; int height; int flags; int ResInfo_Index;}`.
The index is always a store index, kept as `Nat`. -/
structure RESOLUTION_WHR where
  width : Int
  height : Int
  flags : Nat
  ResInfo_Index : Nat
deriving DecidableEq

instance : Inhabited RESOLUTION_WHR := ⟨⟨0, 0, 0, 0⟩⟩

/-- The uniqueness key of a catalog entry: (width, height, flags & MODEMASK). -/
def resKey (r : RESOLUTION_WHR) : Int × Int × Nat :=
  (r.width, r.height, r.flags &&& D3DPRESENTFLAG_MODEMASK)

/-- The match test of the `AddResolution` scan loop body. -/
def resMatches (r : RESOLUTION_WHR) (width height : Int) (flags : Nat) : Prop :=
  r.width = width ∧ r.height = height ∧ (r.flags &&& D3DPRESENTFLAG_MODEMASK) = flags

instance (r : RESOLUTION_WHR) (width height : Int) (flags : Nat) :
    Decidable (resMatches r width height flags) := by
  unfold resMatches; infer_instance

/-- The scan of `AddResolution`: positions `pos, pos+1, ...` over `l`,
returning the first matching position. -/
def findMatchAux (l : List RESOLUTION_WHR) (pos : Nat) (width height : Int)
    (flags : Nat) : Option Nat :=
  match l with
  | [] => none
  | r :: rs =>
      if resMatches r width height flags then some pos
      else findMatchAux rs (pos + 1) width height flags

/-- The `for (idx = 1; idx < resolutions.size(); idx++)` scan of
`AddResolution`: position 0 (the `RES_DESKTOP` slot) is never examined. -/
def findMatchFrom1 (resolutions : List RESOLUTION_WHR) (width height : Int)
    (flags : Nat) : Option Nat :=
  findMatchAux resolutions.tail 1 width height flags

/-- Embeds `AddResolution(resolutions, addindex, bestRefreshrate)`: fetch the record,
scan existing entries from position 1 for a (width, height, masked-flags)
match; on a match optionally retarget that entry's `ResInfo_Index` (when the
record's rate equals a positive `bestRefreshrate`) and stop; otherwise append
a fresh entry. -/
def AddResolution (store : List RESOLUTION_INFO) (resolutions : List RESOLUTION_WHR)
    (addindex : Nat) (bestRefreshrate : ℚ) : List RESOLUTION_WHR :=
  let resInfo := GetResolutionInfo store addindex
  let width := resInfo.iScreenWidth
  let height := resInfo.iScreenHeight
  let flags := resInfo.dwFlags &&& D3DPRESENTFLAG_MODEMASK
  let refreshrate := resInfo.fRefreshRate
  match findMatchFrom1 resolutions width height flags with
  | some idx =>
      if 0 < bestRefreshrate ∧ refreshrate = bestRefreshrate then
        resolutions.set idx { resolutions.getD idx default with ResInfo_Index := addindex }
      else resolutions
  | none => resolutions ++ [⟨width, height, flags, addindex⟩]

/-- Embeds `resSortPredicate`: strict lexicographic comparison on
(width, height, flags), all ascending. -/
def resSortPredicate (i j : RESOLUTION_WHR) : Bool :=
  decide (i.width < j.width
    ∨ (i.width = j.width ∧ i.height < j.height)
    ∨ (i.width = j.width ∧ i.height = j.height ∧ i.flags < j.flags))

/-- Insert into a sorted list: the new element goes after every element
strictly below it. Models one permutation `std::sort` may produce. -/
def insertSorted (pred : α → α → Bool) (x : α) : List α → List α
  | [] => [x]
  | y :: ys => if pred y x then y :: insertSorted pred x ys else x :: y :: ys

/-- Comparator sort producing an output sorted w.r.t. the strict predicate;
stands in for `std::sort`, which promises a sorted permutation. -/
def sortWith (pred : α → α → Bool) : List α → List α
  | [] => []
  | x :: xs => insertSorted pred x (sortWith pred xs)

/-- The dedup pass of `ScreenResolutions`: fold `AddResolution` over store
indices `RES_CUSTOM, ..., store.length - 1` (the pre-sort catalog). -/
def buildResolutions (store : List RESOLUTION_INFO) (refreshrate : ℚ) :
    List RESOLUTION_WHR :=
  (List.range' RES_CUSTOM (store.length - RES_CUSTOM)).foldl
    (fun res idx => AddResolution store res idx refreshrate) []

/-- Embeds `CWinSystemBase::ScreenResolutions`: dedup then sort. -/
def ScreenResolutions (store : List RESOLUTION_INFO) (refreshrate : ℚ) :
    List RESOLUTION_WHR :=
  sortWith resSortPredicate (buildResolutions store refreshrate)

/-- Embeds `REFRESHRATE {float RefreshRate; int ResInfo_Index;}`; the index is a
store index, kept as `Nat`. -/
structure REFRESHRATE where
  RefreshRate : ℚ
  ResInfo_Index : Nat
deriving DecidableEq

instance : Inhabited REFRESHRATE := ⟨⟨0, 0⟩⟩

/-- Embeds `AddRefreshRate(refreshrates, addindex)`: scan for an entry with exactly
this record's rate; if found the record is dropped, otherwise a new entry
carrying the record's rate and index is appended. -/
def AddRefreshRate (store : List RESOLUTION_INFO) (refreshrates : List REFRESHRATE)
    (addindex : Nat) : List REFRESHRATE :=
  let rate := (GetResolutionInfo store addindex).fRefreshRate
  if refreshrates.any (fun rr => rr.RefreshRate = rate) then refreshrates
  else refreshrates ++ [⟨rate, addindex⟩]

/-- Embeds `rrSortPredicate`: ascending by rate. -/
def rrSortPredicate (i j : REFRESHRATE) : Bool :=
  decide (i.RefreshRate < j.RefreshRate)

/-- The filter test of the `RefreshRates` loop body. -/
def rrTargetMatch (store : List RESOLUTION_INFO) (idx : Nat) (width height : Int)
    (dwFlags : Nat) : Prop :=
  (GetResolutionInfo store idx).iScreenWidth = width ∧
  (GetResolutionInfo store idx).iScreenHeight = height ∧
  ((GetResolutionInfo store idx).dwFlags &&& D3DPRESENTFLAG_MODEMASK) =
    (dwFlags &&& D3DPRESENTFLAG_MODEMASK)

instance (store : List RESOLUTION_INFO) (idx : Nat) (width height : Int)
    (dwFlags : Nat) : Decidable (rrTargetMatch store idx width height dwFlags) := by
  unfold rrTargetMatch; infer_instance

/-- The collection loop of `RefreshRates`: scan store indices from
`RES_DESKTOP` upward, feeding every record matching the target mode to
`AddRefreshRate` (the pre-sort list). -/
def collectRefreshRates (store : List RESOLUTION_INFO) (width height : Int)
    (dwFlags : Nat) : List REFRESHRATE :=
  (List.range' RES_DESKTOP (store.length - RES_DESKTOP)).foldl
    (fun acc idx =>
      if rrTargetMatch store idx width height dwFlags then AddRefreshRate store acc idx
      else acc) []

/-- Embeds `CWinSystemBase::RefreshRates`: collect then sort ascending by rate. -/
def RefreshRates (store : List RESOLUTION_INFO) (width height : Int)
    (dwFlags : Nat) : List REFRESHRATE :=
  sortWith rrSortPredicate (collectRefreshRates store width height dwFlags)

/-- Spec-side description for §4.3: the matching records in scan order
(from `RES_DESKTOP` onward, index 0 never scanned), as rate/index entries,
before duplicate merging. -/
def matchingEntriesSpec (store : List RESOLUTION_INFO) (width height : Int)
    (dwFlags : Nat) : List REFRESHRATE :=
  ((List.range' RES_DESKTOP (store.length - RES_DESKTOP)).filter
      (fun idx => decide (rrTargetMatch store idx width height dwFlags))).map
    (fun idx => ⟨(GetResolutionInfo store idx).fRefreshRate, idx⟩)

/-- Spec-side description for §4.3: merge duplicates by exact rate equality,
first occurrence wins (later exact duplicates dropped, no replacement). -/
def dedupFirstByRate : List REFRESHRATE → List REFRESHRATE
  | [] => []
  | r :: rs =>
      r :: dedupFirstByRate (rs.filter (fun y => decide ¬ y.RefreshRate = r.RefreshRate))
termination_by l => l.length
decreasing_by
  exact Nat.lt_succ_of_le (List.length_filter_le _ _)

/-- The body of `AddRefreshRate` with the entry precomputed: append unless an
entry with exactly this rate is already present. -/
def rrInsert (acc : List REFRESHRATE) (e : REFRESHRATE) : List REFRESHRATE :=
  if acc.any (fun rr => rr.RefreshRate = e.RefreshRate) then acc
  else acc ++ [e]

/-- Whether no entry of `acc` already carries `e`'s exact rate. -/
def rateFresh (acc : List REFRESHRATE) (e : REFRESHRATE) : Bool :=
  ! acc.any (fun a => a.RefreshRate = e.RefreshRate)

/-- The fitness metric of `DefaultRefreshRate`: `fabs(targetfps - rate)`. -/
def fitness (targetfps : ℚ) (r : REFRESHRATE) : ℚ :=
  |targetfps - r.RefreshRate|

/-- The search loop of `DefaultRefreshRate`: remaining entries, current best
match and current best fitness (`-1` plays the "unset" sentinel); updates on
strict improvement and breaks on an exact match. -/
def drrLoop (targetfps : ℚ) : List REFRESHRATE → REFRESHRATE → ℚ → REFRESHRATE
  | [], bestmatch, _ => bestmatch
  | r :: rs, bestmatch, bestfitness =>
      let fit := fitness targetfps r
      if bestfitness < 0 ∨ fit < bestfitness then
        if fit = 0 then r else drrLoop targetfps rs r fit
      else drrLoop targetfps rs bestmatch bestfitness

/-- Embeds `CWinSystemBase::DefaultRefreshRate`: `rates[0]` is read unconditionally
as the initial best guess — on an empty vector the access fails, embedded as
`none`; otherwise the loop scans all entries against the desktop rate. -/
def DefaultRefreshRate (store : List RESOLUTION_INFO) (rates : List REFRESHRATE) :
    Option REFRESHRATE :=
  match rates with
  | [] => none
  | r0 :: _ =>
      some (drrLoop (GetResolutionInfo store RES_DESKTOP).fRefreshRate rates r0 (-1))

/-- Reference form of the search loop once the sentinel is consumed: keep the
current best, replace only on strictly smaller fitness. -/
def pickBest (targetfps : ℚ) : List REFRESHRATE → REFRESHRATE → REFRESHRATE
  | [], best => best
  | r :: rs, best =>
      if fitness targetfps r < fitness targetfps best then pickBest targetfps rs r
      else pickBest targetfps rs best

/-- Atomic events of one `DriveRenderLoop` call, lock transitions included. -/
inductive RenderEvent where
  | messagePump : RenderEvent
  | frameMove (client : Nat) : RenderEvent
  | lockAcquire : RenderEvent
  | lockRelease : RenderEvent
deriving DecidableEq

/-- The render-loop participant registry (`m_renderLoopClients`); clients are
embedded as opaque `Nat` identities (the `IRenderLoop*` values). -/
structure WinSystemState where
  renderLoopClients : List Nat
deriving DecidableEq

/-- Embeds `RegisterRenderLoop`: append to the end of the client list (duplicates
permitted, no dedup). -/
def RegisterRenderLoop (s : WinSystemState) (client : Nat) : WinSystemState :=
  { s with renderLoopClients := s.renderLoopClients ++ [client] }

/-- Embeds `UnregisterRenderLoop`: erase the first matching entry; no-op if absent. -/
def UnregisterRenderLoop (s : WinSystemState) (client : Nat) : WinSystemState :=
  { s with renderLoopClients := s.renderLoopClients.erase client }

/-- Embeds `DriveRenderLoop` as its event trace: one `MessagePump()`, then the lock
is taken, every registered client's `FrameMove()` runs inside the critical
section in list order, and the lock is released. -/
def DriveRenderLoopTrace (s : WinSystemState) : List RenderEvent :=
  RenderEvent.messagePump :: RenderEvent.lockAcquire ::
    (s.renderLoopClients.map RenderEvent.frameMove ++ [RenderEvent.lockRelease])

/-- Observable (collaborator-visible) events: the pump step and the client
callbacks; lock transitions are internal. -/
def observableEvent : RenderEvent → Bool
  | RenderEvent.lockAcquire => false
  | RenderEvent.lockRelease => false
  | _ => true

/-- The mutual-exclusion lock is held at position `k` of a trace iff the
acquires strictly before `k` outnumber the releases strictly before `k`. -/
def lockHeldAt (tr : List RenderEvent) (k : Nat) : Prop :=
  (tr.take k).count RenderEvent.lockRelease < (tr.take k).count RenderEvent.lockAcquire

instance (tr : List RenderEvent) (k : Nat) : Decidable (lockHeldAt tr k) := by
  unfold lockHeldAt; infer_instance

/-- Outcomes of the platform display-configuration calls made by
`GetHDRDisplayStatus` (external collaborators): success of each call in
sequence, and the response byte `request[20]` delivered by
`DisplayConfigGetDeviceInfo`. -/
structure HDRPlatform where
  bufferSizesOk : Bool
  allocOk : Bool
  queryOk : Bool
  deviceInfoOk : Bool
  responseCode : Nat
deriving DecidableEq

/-- Embeds `CWinSystemBase::GetHDRDisplayStatus`: `status` starts at 0 and is only
assigned when every platform call succeeds; then `0xD0 ↦ 0` (not capable),
`0xD1 ↦ 1` (capable, off), `0xD3 ↦ 2` (capable, on), anything else
(`"UNKNOWN"`) `↦ 0`. -/
def GetHDRDisplayStatus (p : HDRPlatform) : Int :=
  if p.bufferSizesOk ∧ p.allocOk ∧ p.queryOk ∧ p.deviceInfoOk then
    if p.responseCode = 0xD0 then 0
    else if p.responseCode = 0xD1 then 1
    else if p.responseCode = 0xD3 then 2
    else 0
  else 0

/-- Embeds `CWinSystemBase::IsDisplayHDREnabled`: status equals 2 exactly. -/
def IsDisplayHDREnabled (p : HDRPlatform) : Bool :=
  decide (GetHDRDisplayStatus p = 2)

/-- The rational 59.94 given by its reduced numerator/denominator pair, so
that kernel evaluation never has to run the (irreducible) field operations
of `ℚ`; `r5994_eq` ties it to the literal 5994/100. -/
def r5994 : ℚ := ⟨2997, 50, by decide, by decide⟩

/-- The rational 23.97 given by its reduced numerator/denominator pair. -/
def r2397 : ℚ := ⟨2397, 100, by decide, by decide⟩

theorem r5994_eq : r5994 = (5994 : ℚ) / 100 := by
  unfold r5994
  rw [Rat.mk'_eq_divInt, Rat.divInt_eq_div]
  norm_num

/-- Concrete store refuting C1: two records past the reserved slots sharing
the key (1920, 1080, 0) but carrying different refresh rates. -/
def c1store : List RESOLUTION_INFO :=
  List.replicate RES_CUSTOM default ++ [⟨1920, 1080, 0, 60⟩, ⟨1920, 1080, 0, 50⟩]

/-- Concrete store for C4: the three raw records of the spec's test vector,
placed at indices `RES_CUSTOM`, `RES_CUSTOM + 1`, `RES_CUSTOM + 2`. -/
def c4store : List RESOLUTION_INFO :=
  List.replicate RES_CUSTOM default ++
    [⟨1920, 1080, 0, 60⟩, ⟨1920, 1080, 0, r5994⟩, ⟨1920, 1080, 0, 60⟩]

/-- Concrete store for C5's test vector: desktop refresh rate 52. -/
def c5store : List RESOLUTION_INFO :=
  List.replicate RES_DESKTOP default ++ [⟨0, 0, 0, 52⟩]

/-- Concrete store exercising `RefreshRates`: desktop 1920×1080\@60 plus
custom modes, with one exact duplicate rate at a later index. -/
def c7store : List RESOLUTION_INFO :=
  List.replicate RES_DESKTOP default ++
    [⟨1920, 1080, 0, 60⟩, ⟨1920, 1080, 0, 50⟩, ⟨1280, 720, 0, 60⟩,
     ⟨1920, 1080, 0, 60⟩, ⟨1920, 1080, 0, r2397⟩]

/- ## General lemmas -/

theorem insertSorted_perm (pred : α → α → Bool) (x : α) (l : List α) :
    (insertSorted pred x l).Perm (x :: l) := by
  induction l with
  | nil => simp [insertSorted]
  | cons y ys ih =>
      simp only [insertSorted]
      split
      · exact ((ih.cons y).trans (List.Perm.swap x y ys))
      · exact List.Perm.refl _

theorem sortWith_perm (pred : α → α → Bool) (l : List α) :
    (sortWith pred l).Perm l := by
  induction l with
  | nil => exact List.Perm.refl _
  | cons x xs ih =>
      exact (insertSorted_perm pred x (sortWith pred xs)).trans (ih.cons x)

/- ## Claim theorems -/

/-- C2: `resSortPredicate` orders by width ascending, then height ascending,
then flags ascending, and is a strict weak ordering: for every pair exactly
one of less(i,j), less(j,i), equivalence holds; it is irreflexive, asymmetric
and transitive, and the induced equivalence is transitive. -/
theorem spec_c2_resSortPredicate_strict_weak_order :
    ∀ i j k : RESOLUTION_WHR,
      (resSortPredicate i j = true
        ↔ (i.width < j.width
            ∨ (i.width = j.width ∧ i.height < j.height)
            ∨ (i.width = j.width ∧ i.height = j.height ∧ i.flags < j.flags)))
      ∧ ((resSortPredicate i j = true ∧ resSortPredicate j i = false)
          ∨ (resSortPredicate j i = true ∧ resSortPredicate i j = false)
          ∨ (resSortPredicate i j = false ∧ resSortPredicate j i = false))
      ∧ resSortPredicate i i = false
      ∧ (resSortPredicate i j = true → resSortPredicate j i = false)
      ∧ (resSortPredicate i j = true → resSortPredicate j k = true →
          resSortPredicate i k = true)
      ∧ ((resSortPredicate i j = false ∧ resSortPredicate j i = false) →
         (resSortPredicate j k = false ∧ resSortPredicate k j = false) →
         (resSortPredicate i k = false ∧ resSortPredicate k i = false)) := by
  intro i j k
  simp only [resSortPredicate, decide_eq_true_eq, decide_eq_false_iff_not]
  refine ⟨?_, ?_, ?_, ?_, ?_, ?_⟩ <;> first | trivial | omega

/-- Witness for C2 at concrete entries: transitivity applied to three
concrete catalog entries ordered by width. -/
theorem spec_c2_witness :
    resSortPredicate ⟨1280, 720, 0, 5⟩ ⟨3840, 2160, 0, 7⟩ = true :=
  (spec_c2_resSortPredicate_strict_weak_order
      ⟨1280, 720, 0, 5⟩ ⟨1920, 1080, 0, 6⟩ ⟨3840, 2160, 0, 7⟩).2.2.2.2.1
    (by decide) (by decide)

/-- C6: `DefaultRefreshRate` reads `rates[0]` unconditionally; on an empty
entry list the access fails (embedded as `none`) and no normal result is
ever produced, for every store. -/
theorem spec_c6_defaultRefreshRate_empty_fails :
    ∀ store : List RESOLUTION_INFO,
      DefaultRefreshRate store [] = none ∧
      ¬ ∃ r : REFRESHRATE, DefaultRefreshRate store [] = some r := by
  intro store
  simp [DefaultRefreshRate]

/-- C9 counterexample: an unrecognized response code (0xAB) and a failed
platform query both produce the very status value that the recognized
not-capable code 0xD0 produces — the "Unknown" outcome is the integer 0,
not a value distinct from NotCapable. -/
theorem spec_c9_counterexample :
    GetHDRDisplayStatus ⟨true, true, true, true, 0xAB⟩
        = GetHDRDisplayStatus ⟨true, true, true, true, 0xD0⟩
      ∧ GetHDRDisplayStatus ⟨false, true, true, true, 0xD1⟩
        = GetHDRDisplayStatus ⟨true, true, true, true, 0xD0⟩ := by
  decide

/-- C9 amended: whenever any platform call does not succeed the function
returns status 0 (the same integer that encodes NotCapable) and is total
(never raises); the result is always one of 0, 1, 2; on success the three
recognized codes map to 0, 1, 2 and every other code also maps to 0. -/
theorem spec_c9_amended_hdr_status :
    ∀ p : HDRPlatform,
      (¬ (p.bufferSizesOk ∧ p.allocOk ∧ p.queryOk ∧ p.deviceInfoOk) →
        GetHDRDisplayStatus p = 0)
      ∧ (GetHDRDisplayStatus p = 0 ∨ GetHDRDisplayStatus p = 1 ∨
          GetHDRDisplayStatus p = 2)
      ∧ ((p.bufferSizesOk ∧ p.allocOk ∧ p.queryOk ∧ p.deviceInfoOk) →
          (p.responseCode = 0xD0 → GetHDRDisplayStatus p = 0)
          ∧ (p.responseCode = 0xD1 → GetHDRDisplayStatus p = 1)
          ∧ (p.responseCode = 0xD3 → GetHDRDisplayStatus p = 2)
          ∧ (p.responseCode ≠ 0xD0 → p.responseCode ≠ 0xD1 →
              p.responseCode ≠ 0xD3 → GetHDRDisplayStatus p = 0)) := by
  intro p
  unfold GetHDRDisplayStatus
  split_ifs <;> simp_all

/-- Witness for C9 amended: a failed buffer-size query yields status 0. -/
theorem spec_c9_witness :
    GetHDRDisplayStatus ⟨false, true, true, true, 0xD3⟩ = 0 :=
  (spec_c9_amended_hdr_status ⟨false, true, true, true, 0xD3⟩).1 (by decide)

/-- C10 counterexample: with one registered participant, the `FrameMove()`
invocation (trace position 2) happens while the render-loop lock is held —
the critical section spans the callback, contradicting "the lock is never
held while a participant's advance operation is being invoked". -/
theorem spec_c10_counterexample :
    (DriveRenderLoopTrace ⟨[0]⟩)[2]? = some (RenderEvent.frameMove 0)
      ∧ lockHeldAt (DriveRenderLoopTrace ⟨[0]⟩) 2 := by
  decide

/- ## Dedup-scan lemmas for the resolution catalog -/

theorem findMatchAux_none_iff (w h : Int) (f : Nat) :
    ∀ (l : List RESOLUTION_WHR) (pos : Nat),
      findMatchAux l pos w h f = none ↔ ∀ r ∈ l, ¬ resMatches r w h f := by
  intro l
  induction l with
  | nil => intro pos; simp [findMatchAux]
  | cons r rs ih =>
      intro pos
      simp only [findMatchAux]
      by_cases hr : resMatches r w h f
      · simp [hr]
      · simp [hr, ih (pos + 1)]

theorem findMatchAux_some_spec (w h : Int) (f : Nat) :
    ∀ (l : List RESOLUTION_WHR) (pos idx : Nat),
      findMatchAux l pos w h f = some idx →
      pos ≤ idx ∧ idx - pos < l.length ∧
        resMatches (l.getD (idx - pos) default) w h f := by
  intro l
  induction l with
  | nil => intro pos idx hsome; simp [findMatchAux] at hsome
  | cons r rs ih =>
      intro pos idx hsome
      simp only [findMatchAux] at hsome
      by_cases hr : resMatches r w h f
      · simp only [if_pos hr, Option.some.injEq] at hsome
        subst hsome
        simpa using hr
      · simp only [if_neg hr] at hsome
        obtain ⟨h1, h2, h3⟩ := ih (pos + 1) idx hsome
        refine ⟨by omega, ?_, ?_⟩
        · simp only [List.length_cons]
          omega
        · have hstep : idx - pos = (idx - (pos + 1)) + 1 := by omega
          rw [hstep]
          simpa using h3

theorem AddResolution_none (store : List RESOLUTION_INFO) (res : List RESOLUTION_WHR)
    (addindex : Nat) (rate : ℚ)
    (hm : findMatchFrom1 res (GetResolutionInfo store addindex).iScreenWidth
        (GetResolutionInfo store addindex).iScreenHeight
        ((GetResolutionInfo store addindex).dwFlags &&& D3DPRESENTFLAG_MODEMASK) = none) :
    AddResolution store res addindex rate
      = res ++ [⟨(GetResolutionInfo store addindex).iScreenWidth,
                 (GetResolutionInfo store addindex).iScreenHeight,
                 (GetResolutionInfo store addindex).dwFlags &&& D3DPRESENTFLAG_MODEMASK,
                 addindex⟩] := by
  simp only [AddResolution, hm]

theorem AddResolution_some_replace (store : List RESOLUTION_INFO)
    (res : List RESOLUTION_WHR) (addindex : Nat) (rate : ℚ) (idx : Nat)
    (hm : findMatchFrom1 res (GetResolutionInfo store addindex).iScreenWidth
        (GetResolutionInfo store addindex).iScreenHeight
        ((GetResolutionInfo store addindex).dwFlags &&& D3DPRESENTFLAG_MODEMASK) = some idx)
    (hc : 0 < rate ∧ (GetResolutionInfo store addindex).fRefreshRate = rate) :
    AddResolution store res addindex rate
      = res.set idx { res.getD idx default with ResInfo_Index := addindex } := by
  simp only [AddResolution, hm, if_pos hc]

theorem AddResolution_some_drop (store : List RESOLUTION_INFO)
    (res : List RESOLUTION_WHR) (addindex : Nat) (rate : ℚ) (idx : Nat)
    (hm : findMatchFrom1 res (GetResolutionInfo store addindex).iScreenWidth
        (GetResolutionInfo store addindex).iScreenHeight
        ((GetResolutionInfo store addindex).dwFlags &&& D3DPRESENTFLAG_MODEMASK) = some idx)
    (hc : ¬ (0 < rate ∧ (GetResolutionInfo store addindex).fRefreshRate = rate)) :
    AddResolution store res addindex rate = res := by
  simp only [AddResolution, hm, if_neg hc]

theorem mapKey_set (a : Nat) :
    ∀ (l : List RESOLUTION_WHR) (n : Nat), n < l.length →
      ((l.set n { l.getD n default with ResInfo_Index := a }).map resKey)
        = l.map resKey := by
  intro l
  induction l with
  | nil => intro n hn; simp at hn
  | cons x xs ih =>
      intro n hn
      cases n with
      | zero => simp [resKey]
      | succ n =>
          simp only [List.getD_cons_succ, List.set_cons_succ, List.map_cons]
          rw [ih n (by simpa using hn)]

theorem resKey_new_entry (w h : Int) (fl : Nat) (i : Nat) :
    resKey ⟨w, h, fl &&& D3DPRESENTFLAG_MODEMASK, i⟩
      = (w, h, fl &&& D3DPRESENTFLAG_MODEMASK) := by
  simp [resKey, Nat.and_assoc, Nat.and_self]

theorem addResolution_tail_keys_nodup (store : List RESOLUTION_INFO)
    (addindex : Nat) (rate : ℚ) (res : List RESOLUTION_WHR)
    (hres : ((res.tail).map resKey).Nodup) :
    (((AddResolution store res addindex rate).tail).map resKey).Nodup := by
  cases hm : findMatchFrom1 res (GetResolutionInfo store addindex).iScreenWidth
      (GetResolutionInfo store addindex).iScreenHeight
      ((GetResolutionInfo store addindex).dwFlags &&& D3DPRESENTFLAG_MODEMASK) with
  | some idx =>
      by_cases hc : 0 < rate ∧ (GetResolutionInfo store addindex).fRefreshRate = rate
      · rw [AddResolution_some_replace store res addindex rate idx hm hc]
        cases res with
        | nil => simp [findMatchFrom1, findMatchAux] at hm
        | cons x xs =>
            obtain ⟨h1, h2, h3⟩ := findMatchAux_some_spec _ _ _ _ _ _ hm
            obtain ⟨n, rfl⟩ : ∃ n, idx = n + 1 := ⟨idx - 1, by omega⟩
            have hn : n < xs.length := by
              simpa using h2
            have hget : (x :: xs).getD (n + 1) default = xs.getD n default := by simp
            rw [hget, List.set_cons_succ, List.tail_cons, mapKey_set addindex xs n hn]
            simpa using hres
      · rw [AddResolution_some_drop store res addindex rate idx hm hc]
        exact hres
  | none =>
      rw [AddResolution_none store res addindex rate hm]
      cases res with
      | nil => simp
      | cons x xs =>
          simp only [List.tail_cons] at hres
          rw [List.cons_append, List.tail_cons, List.map_append, List.map_singleton,
            resKey_new_entry, List.nodup_append]
          refine ⟨hres, List.nodup_singleton _, ?_⟩
          intro k hk hk1
          simp only [List.mem_singleton] at hk1
          subst hk1
          obtain ⟨r, hrmem, hrkey⟩ := List.mem_map.mp hk
          have hnomatch := (findMatchAux_none_iff _ _ _ xs 1).mp (by simpa [findMatchFrom1] using hm)
          refine hnomatch r hrmem ?_
          have h1 : r.width = (GetResolutionInfo store addindex).iScreenWidth := by
            have := congrArg Prod.fst hrkey
            simpa [resKey] using this
          have h2 : r.height = (GetResolutionInfo store addindex).iScreenHeight := by
            have := congrArg (fun p => p.2.1) hrkey
            simpa [resKey] using this
          have h3 : r.flags &&& D3DPRESENTFLAG_MODEMASK
              = (GetResolutionInfo store addindex).dwFlags &&& D3DPRESENTFLAG_MODEMASK := by
            have := congrArg (fun p => p.2.2) hrkey
            simpa [resKey] using this
          exact ⟨h1, h2, h3⟩

theorem foldl_addResolution_tail_keys_nodup (store : List RESOLUTION_INFO) (rate : ℚ) :
    ∀ (idxs : List Nat) (res : List RESOLUTION_WHR),
      ((res.tail).map resKey).Nodup →
      ((((idxs.foldl (fun r i => AddResolution store r i rate) res)).tail).map resKey).Nodup := by
  intro idxs
  induction idxs with
  | nil => intro res hres; exact hres
  | cons i is ih =>
      intro res hres
      exact ih _ (addResolution_tail_keys_nodup store i rate res hres)

/-- C1 counterexample: two raw records sharing the key (1920, 1080, 0) — the
second one is appended although the first (scan-exempt baseline at position
0) already carries that key, so the returned vector holds the same
uniqueness key twice. -/
theorem spec_c1_counterexample :
    (ScreenResolutions c1store 0).length = 2
      ∧ resKey ((ScreenResolutions c1store 0).getD 0 default)
          = resKey ((ScreenResolutions c1store 0).getD 1 default)
      ∧ ((ScreenResolutions c1store 0).getD 0 default).ResInfo_Index
          ≠ ((ScreenResolutions c1store 0).getD 1 default).ResInfo_Index := by
  decide

/-- C1 amended: at most one catalog entry per uniqueness key among the
entries other than the scan-exempt baseline at position 0 — the pre-sort
catalog's tail has pairwise-distinct keys — and the vector returned by
`ScreenResolutions` is a permutation of that pre-sort catalog (so a key can
occur at most twice overall, and only when one holder is the baseline). -/
theorem spec_c1_amended_key_uniqueness :
    ∀ (store : List RESOLUTION_INFO) (preferredRate : ℚ),
      (((buildResolutions store preferredRate).tail).map resKey).Nodup
      ∧ (ScreenResolutions store preferredRate).Perm
          (buildResolutions store preferredRate) := by
  intro store preferredRate
  constructor
  · exact foldl_addResolution_tail_keys_nodup store preferredRate _ [] (by simp)
  · exact sortWith_perm _ _

/-- C4: on the spec's test vector (records (1920,1080,0) at 60, 59.94, 60 Hz
with preferredRate 59.94) the dedup pass yields the fixed baseline unchanged
at position 0 plus exactly one further unique entry, and that entry's
representative index `RES_CUSTOM + 1` is the index of the 59.94 record; the
returned catalog is a permutation of this. -/
theorem spec_c4_dedup_test_vector :
    r5994 = (5994 : ℚ) / 100
      ∧ buildResolutions c4store r5994
          = [⟨1920, 1080, 0, RES_CUSTOM⟩, ⟨1920, 1080, 0, RES_CUSTOM + 1⟩]
      ∧ (GetResolutionInfo c4store (RES_CUSTOM + 1)).fRefreshRate = r5994
      ∧ (ScreenResolutions c4store r5994).Perm (buildResolutions c4store r5994) := by
  refine ⟨r5994_eq, by decide, by decide, sortWith_perm _ _⟩

/- ## C3: the dedup step -/

theorem findMatchAux_isSome_of_mem (w h : Int) (f : Nat) :
    ∀ (l : List RESOLUTION_WHR) (pos : Nat),
      (∃ r ∈ l, resMatches r w h f) →
      ∃ idx, findMatchAux l pos w h f = some idx := by
  intro l
  induction l with
  | nil => intro pos hex; simp at hex
  | cons r rs ih =>
      intro pos hex
      simp only [findMatchAux]
      by_cases hr : resMatches r w h f
      · exact ⟨pos, by rw [if_pos hr]⟩
      · obtain ⟨r', hr'mem, hr'⟩ := hex
        rcases List.mem_cons.mp hr'mem with rfl | hmem
        · exact absurd hr' hr
        · rw [if_neg hr]
          exact ih (pos + 1) ⟨r', hmem, hr'⟩

theorem getD_eq_tail_getD (res : List RESOLUTION_WHR) (n : Nat) :
    res.getD (n + 1) default = res.tail.getD n default := by
  cases res <;> simp

/-- C3: one `AddResolution` step. If the incoming record's key matches some
entry eligible for matching (position ≥ 1): when `preferredRate > 0` and the
record's rate equals it, the first matched entry has only its
`ResInfo_Index` replaced by the record's index (width/height/flags kept,
length unchanged); in every other matched case the output is exactly the
input; when no eligible entry matches, a new entry with the record's width,
height, masked flags and index is appended. -/
theorem spec_c3_addResolution_step :
    ∀ (store : List RESOLUTION_INFO) (res : List RESOLUTION_WHR) (addindex : Nat)
      (preferredRate : ℚ) (w h : Int) (fl : Nat) (rr : ℚ),
      GetResolutionInfo store addindex = ⟨w, h, fl, rr⟩ →
      ((∃ r ∈ res.tail, resMatches r w h (fl &&& D3DPRESENTFLAG_MODEMASK)) →
        ∃ idx, findMatchFrom1 res w h (fl &&& D3DPRESENTFLAG_MODEMASK) = some idx
          ∧ 1 ≤ idx ∧ idx < res.length
          ∧ resMatches (res.getD idx default) w h (fl &&& D3DPRESENTFLAG_MODEMASK)
          ∧ ((0 < preferredRate ∧ rr = preferredRate) →
              AddResolution store res addindex preferredRate
                  = res.set idx { res.getD idx default with ResInfo_Index := addindex }
                ∧ (AddResolution store res addindex preferredRate).length = res.length)
          ∧ (¬ (0 < preferredRate ∧ rr = preferredRate) →
              AddResolution store res addindex preferredRate = res))
      ∧ ((∀ r ∈ res.tail, ¬ resMatches r w h (fl &&& D3DPRESENTFLAG_MODEMASK)) →
          AddResolution store res addindex preferredRate
            = res ++ [⟨w, h, fl &&& D3DPRESENTFLAG_MODEMASK, addindex⟩]) := by
  intro store res addindex preferredRate w h fl rr hinfo
  have hw : (GetResolutionInfo store addindex).iScreenWidth = w := by rw [hinfo]
  have hh : (GetResolutionInfo store addindex).iScreenHeight = h := by rw [hinfo]
  have hf : (GetResolutionInfo store addindex).dwFlags = fl := by rw [hinfo]
  have hr : (GetResolutionInfo store addindex).fRefreshRate = rr := by rw [hinfo]
  constructor
  · intro hex
    obtain ⟨idx, hidx⟩ :=
      findMatchAux_isSome_of_mem w h (fl &&& D3DPRESENTFLAG_MODEMASK) res.tail 1 hex
    obtain ⟨h1, h2, h3⟩ :=
      findMatchAux_some_spec w h (fl &&& D3DPRESENTFLAG_MODEMASK) res.tail 1 idx hidx
    have hmatch : findMatchFrom1 res w h (fl &&& D3DPRESENTFLAG_MODEMASK) = some idx := hidx
    have hmatch' : findMatchFrom1 res (GetResolutionInfo store addindex).iScreenWidth
        (GetResolutionInfo store addindex).iScreenHeight
        ((GetResolutionInfo store addindex).dwFlags &&& D3DPRESENTFLAG_MODEMASK)
          = some idx := by
      rw [hw, hh, hf]; exact hmatch
    have hlen : res.tail.length = res.length - 1 := by
      cases res <;> simp
    obtain ⟨n, rfl⟩ : ∃ n, idx = n + 1 := ⟨idx - 1, by omega⟩
    have hget : res.getD (n + 1) default = res.tail.getD n default :=
      getD_eq_tail_getD res n
    refine ⟨n + 1, hmatch, by omega, by omega, ?_, ?_, ?_⟩
    · rw [hget]; simpa using h3
    · intro hc
      have hc' : 0 < preferredRate
          ∧ (GetResolutionInfo store addindex).fRefreshRate = preferredRate := by
        rw [hr]; exact hc
      refine ⟨AddResolution_some_replace store res addindex preferredRate (n + 1) hmatch' hc', ?_⟩
      rw [AddResolution_some_replace store res addindex preferredRate (n + 1) hmatch' hc']
      exact List.length_set res _ _
    · intro hc
      have hc' : ¬ (0 < preferredRate
          ∧ (GetResolutionInfo store addindex).fRefreshRate = preferredRate) := by
        rw [hr]; exact hc
      exact AddResolution_some_drop store res addindex preferredRate (n + 1) hmatch' hc'
  · intro hnone
    have hm : findMatchFrom1 res w h (fl &&& D3DPRESENTFLAG_MODEMASK) = none := by
      unfold findMatchFrom1
      exact (findMatchAux_none_iff w h (fl &&& D3DPRESENTFLAG_MODEMASK) res.tail 1).mpr hnone
    have hm' : findMatchFrom1 res (GetResolutionInfo store addindex).iScreenWidth
        (GetResolutionInfo store addindex).iScreenHeight
        ((GetResolutionInfo store addindex).dwFlags &&& D3DPRESENTFLAG_MODEMASK) = none := by
      rw [hw, hh, hf]; exact hm
    rw [AddResolution_none store res addindex preferredRate hm', hw, hh, hf]

/-- Witness for C3: with the catalog already holding the baseline and one
unique 1920×1080 entry, adding the third C4 record (rate 60 = preferredRate)
retargets the matched entry's index while keeping its key and the length. -/
theorem spec_c3_witness :
    AddResolution c4store
        [⟨1920, 1080, 0, RES_CUSTOM⟩, ⟨1920, 1080, 0, RES_CUSTOM + 1⟩]
        (RES_CUSTOM + 2) 60
      = [⟨1920, 1080, 0, RES_CUSTOM⟩, ⟨1920, 1080, 0, RES_CUSTOM + 2⟩] := by
  obtain ⟨idx, hidx, -, -, -, hrep, -⟩ :=
    (spec_c3_addResolution_step c4store
        [⟨1920, 1080, 0, RES_CUSTOM⟩, ⟨1920, 1080, 0, RES_CUSTOM + 1⟩]
        (RES_CUSTOM + 2) 60 1920 1080 0 60 (by decide)).1
      ⟨⟨1920, 1080, 0, RES_CUSTOM + 1⟩, by decide, by decide⟩
  have hone : idx = 1 := by
    have hconc : findMatchFrom1
        [⟨1920, 1080, 0, RES_CUSTOM⟩, ⟨1920, 1080, 0, RES_CUSTOM + 1⟩]
        1920 1080 (0 &&& D3DPRESENTFLAG_MODEMASK) = some 1 := by decide
    have := hconc.symm.trans hidx
    exact (Option.some.injEq _ _ ▸ this).symm
  subst hone
  obtain ⟨heq, -⟩ := hrep ⟨by decide, by decide⟩
  rw [heq]
  decide

/- ## C5: nearest refresh rate -/

theorem fitness_nonneg (t : ℚ) (r : REFRESHRATE) : 0 ≤ fitness t r :=
  abs_nonneg _

theorem pickBest_of_perfect (t : ℚ) :
    ∀ (l : List REFRESHRATE) (b : REFRESHRATE),
      fitness t b = 0 → pickBest t l b = b := by
  intro l
  induction l with
  | nil => intro b _; rfl
  | cons r rs ih =>
      intro b hb
      simp only [pickBest, hb]
      rw [if_neg (not_lt.mpr (fitness_nonneg t r))]
      exact ih b hb

theorem drrLoop_eq_pickBest (t : ℚ) :
    ∀ (l : List REFRESHRATE) (b : REFRESHRATE),
      drrLoop t l b (fitness t b) = pickBest t l b := by
  intro l
  induction l with
  | nil => intro b; rfl
  | cons r rs ih =>
      intro b
      simp only [drrLoop, pickBest]
      by_cases hlt : fitness t r < fitness t b
      · rw [if_pos (Or.inr hlt), if_pos hlt]
        by_cases hz : fitness t r = 0
        · rw [if_pos hz]
          exact (pickBest_of_perfect t rs r hz).symm
        · rw [if_neg hz]
          exact ih r
      · rw [if_neg ?hcond, if_neg hlt]
        · exact ih b
        case hcond =>
          push_neg
          exact ⟨fitness_nonneg t b, not_lt.mp hlt⟩

theorem drrLoop_init (t : ℚ) (r0 : REFRESHRATE) (rs : List REFRESHRATE)
    (b : REFRESHRATE) : drrLoop t (r0 :: rs) b (-1) = pickBest t rs r0 := by
  simp only [drrLoop]
  rw [if_pos (Or.inl (by norm_num))]
  by_cases hz : fitness t r0 = 0
  · rw [if_pos hz]
    exact (pickBest_of_perfect t rs r0 hz).symm
  · rw [if_neg hz]
    exact drrLoop_eq_pickBest t rs r0

theorem pickBest_spec (t : ℚ) :
    ∀ (l : List REFRESHRATE) (b : REFRESHRATE),
      (pickBest t l b = b ∧ ∀ y ∈ l, fitness t b ≤ fitness t y)
      ∨ (∃ pre x post, l = pre ++ x :: post ∧ pickBest t l b = x
          ∧ fitness t x < fitness t b
          ∧ (∀ y ∈ pre, fitness t x < fitness t y)
          ∧ (∀ y ∈ post, fitness t x ≤ fitness t y)) := by
  intro l
  induction l with
  | nil => intro b; left; exact ⟨rfl, by simp⟩
  | cons r rs ih =>
      intro b
      by_cases hlt : fitness t r < fitness t b
      · have hstep : pickBest t (r :: rs) b = pickBest t rs r := by
          simp only [pickBest, if_pos hlt]
        rcases ih r with ⟨heq, hmin⟩ | ⟨pre, x, post, hsplit, heq, hx, hpre, hpost⟩
        · right
          exact ⟨[], r, rs, rfl, by rw [hstep, heq], hlt, by simp, hmin⟩
        · right
          refine ⟨r :: pre, x, post, by rw [hsplit, List.cons_append],
            by rw [hstep, heq], hx.trans hlt, ?_, hpost⟩
          intro y hy
          rcases List.mem_cons.mp hy with rfl | hy'
          · exact hx
          · exact hpre y hy'
      · have hstep : pickBest t (r :: rs) b = pickBest t rs b := by
          simp only [pickBest, if_neg hlt]
        push_neg at hlt
        rcases ih b with ⟨heq, hmin⟩ | ⟨pre, x, post, hsplit, heq, hx, hpre, hpost⟩
        · left
          refine ⟨by rw [hstep, heq], ?_⟩
          intro y hy
          rcases List.mem_cons.mp hy with rfl | hy'
          · exact hlt
          · exact hmin y hy'
        · right
          refine ⟨r :: pre, x, post, by rw [hsplit, List.cons_append],
            by rw [hstep, heq], hx, ?_, hpost⟩
          intro y hy
          rcases List.mem_cons.mp hy with rfl | hy'
          · exact lt_of_lt_of_le hx hlt
          · exact hpre y hy'

/-- C5: on every non-empty entry list, `DefaultRefreshRate` returns an entry
of the list whose fitness |targetRate − rate| (target = the desktop record's
rate) is minimal over the whole list, and every entry occurring earlier in
iteration order has strictly larger fitness (first-encountered wins on
ties); in particular on entries [{50},{55}] with target 52 it returns {50}. -/
theorem spec_c5_defaultRefreshRate_nearest :
    (∀ (store : List RESOLUTION_INFO) (rates : List REFRESHRATE), rates ≠ [] →
      ∃ res, DefaultRefreshRate store rates = some res
        ∧ res ∈ rates
        ∧ (∀ r ∈ rates,
            fitness (GetResolutionInfo store RES_DESKTOP).fRefreshRate res
              ≤ fitness (GetResolutionInfo store RES_DESKTOP).fRefreshRate r)
        ∧ (∃ pre post, rates = pre ++ res :: post
            ∧ ∀ y ∈ pre,
                fitness (GetResolutionInfo store RES_DESKTOP).fRefreshRate res
                  < fitness (GetResolutionInfo store RES_DESKTOP).fRefreshRate y))
    ∧ DefaultRefreshRate c5store [⟨50, 0⟩, ⟨55, 1⟩] = some ⟨50, 0⟩ := by
  constructor
  · intro store rates hne
    match rates, hne with
    | r0 :: rs, _ =>
      set t := (GetResolutionInfo store RES_DESKTOP).fRefreshRate with ht
      have hinit : DefaultRefreshRate store (r0 :: rs) = some (pickBest t rs r0) := by
        simp only [DefaultRefreshRate, drrLoop_init]
      rcases pickBest_spec t rs r0 with ⟨heq, hmin⟩ |
          ⟨pre, x, post, hsplit, heq, hx, hpre, hpost⟩
      · refine ⟨r0, by rw [hinit, heq], List.mem_cons_self r0 rs, ?_, [], rs, rfl, by simp⟩
        intro r hmem
        rcases List.mem_cons.mp hmem with rfl | hmem'
        · exact le_refl _
        · exact hmin r hmem'
      · refine ⟨x, by rw [hinit, heq], ?_, ?_, r0 :: pre, post,
          by rw [hsplit, List.cons_append], ?_⟩
        · rw [hsplit]
          exact List.mem_cons_of_mem r0 (by simp)
        · intro r hmem
          rcases List.mem_cons.mp hmem with rfl | hmem'
          · exact le_of_lt hx
          · rw [hsplit] at hmem'
            rcases List.mem_append.mp hmem' with hp | hq
            · exact le_of_lt (hpre r hp)
            · rcases List.mem_cons.mp hq with rfl | hq'
              · exact le_refl _
              · exact hpost r hq'
        · intro y hy
          rcases List.mem_cons.mp hy with rfl | hy'
          · exact hx
          · exact hpre y hy'
  · have ht : (GetResolutionInfo c5store RES_DESKTOP).fRefreshRate = 52 := by decide
    simp only [DefaultRefreshRate, drrLoop_init, ht]
    norm_num [pickBest, fitness]

/-- Witness for C5: the theorem applied to the spec's concrete test vector
(entries [{50},{55}], desktop target 52). -/
theorem spec_c5_witness :
    ([⟨50, 0⟩, ⟨55, 1⟩] : List REFRESHRATE) ≠ []
      ∧ ∃ res, DefaultRefreshRate c5store [⟨50, 0⟩, ⟨55, 1⟩] = some res
          ∧ res ∈ ([⟨50, 0⟩, ⟨55, 1⟩] : List REFRESHRATE)
          ∧ (∀ r ∈ ([⟨50, 0⟩, ⟨55, 1⟩] : List REFRESHRATE),
              fitness (GetResolutionInfo c5store RES_DESKTOP).fRefreshRate res
                ≤ fitness (GetResolutionInfo c5store RES_DESKTOP).fRefreshRate r)
          ∧ (∃ pre post, ([⟨50, 0⟩, ⟨55, 1⟩] : List REFRESHRATE) = pre ++ res :: post
              ∧ ∀ y ∈ pre,
                  fitness (GetResolutionInfo c5store RES_DESKTOP).fRefreshRate res
                    < fitness (GetResolutionInfo c5store RES_DESKTOP).fRefreshRate y) :=
  ⟨by decide,
   spec_c5_defaultRefreshRate_nearest.1 c5store [⟨50, 0⟩, ⟨55, 1⟩] (by decide)⟩

/- ## C7: refresh-rate collection -/

theorem AddRefreshRate_eq_rrInsert (store : List RESOLUTION_INFO)
    (acc : List REFRESHRATE) (idx : Nat) :
    AddRefreshRate store acc idx
      = rrInsert acc ⟨(GetResolutionInfo store idx).fRefreshRate, idx⟩ := rfl

theorem foldl_ite_filter {β : Type} (p : Nat → Prop) [DecidablePred p]
    (g : List β → Nat → List β) :
    ∀ (idxs : List Nat) (acc : List β),
      idxs.foldl (fun acc i => if p i then g acc i else acc) acc
        = (idxs.filter (fun i => decide (p i))).foldl g acc := by
  intro idxs
  induction idxs with
  | nil => intro acc; rfl
  | cons i is ih =>
      intro acc
      by_cases hi : p i
      · simp only [List.foldl_cons, if_pos hi, List.filter_cons, decide_eq_true hi]
        exact ih (g acc i)
      · simp only [List.foldl_cons, if_neg hi, List.filter_cons,
          decide_eq_false hi]
        exact ih acc

theorem foldl_addRefreshRate_eq_foldl_rrInsert (store : List RESOLUTION_INFO) :
    ∀ (idxs : List Nat) (acc : List REFRESHRATE),
      idxs.foldl (AddRefreshRate store) acc
        = (idxs.map (fun i =>
            (⟨(GetResolutionInfo store i).fRefreshRate, i⟩ : REFRESHRATE))).foldl
            rrInsert acc := by
  intro idxs
  induction idxs with
  | nil => intro acc; rfl
  | cons i is ih =>
      intro acc
      simp only [List.foldl_cons, List.map_cons, AddRefreshRate_eq_rrInsert]
      exact ih _

theorem foldl_rrInsert_eq_dedup :
    ∀ (l : List REFRESHRATE) (acc : List REFRESHRATE),
      l.foldl rrInsert acc = acc ++ dedupFirstByRate (l.filter (rateFresh acc)) := by
  intro l
  induction l with
  | nil => intro acc; simp [dedupFirstByRate]
  | cons e l ih =>
      intro acc
      by_cases hmem : acc.any (fun a => a.RefreshRate = e.RefreshRate)
      · have hstep : rrInsert acc e = acc := by simp only [rrInsert, if_pos hmem]
        have hfresh : rateFresh acc e = false := by
          simp only [rateFresh, hmem, Bool.not_true]
        simp only [List.foldl_cons, hstep, List.filter_cons, hfresh,
          Bool.false_eq_true, if_false]
        exact ih acc
      · have hstep : rrInsert acc e = acc ++ [e] := by simp only [rrInsert, if_neg hmem]
        have hfresh : rateFresh acc e = true := by
          simp [rateFresh, hmem]
        have hsplit : l.filter (rateFresh (acc ++ [e]))
            = (l.filter (rateFresh acc)).filter
                (fun y => decide (¬ y.RefreshRate = e.RefreshRate)) := by
          rw [List.filter_filter]
          apply List.filter_congr
          intro y _
          simp [rateFresh, List.any_append, Bool.not_or, decide_not, Bool.and_comm,
            eq_comm]
        simp only [List.foldl_cons, hstep, List.filter_cons, hfresh, if_true]
        rw [ih (acc ++ [e]), hsplit, dedupFirstByRate, List.append_assoc,
          List.singleton_append]

theorem collectRefreshRates_eq_dedup (store : List RESOLUTION_INFO)
    (width height : Int) (dwFlags : Nat) :
    collectRefreshRates store width height dwFlags
      = dedupFirstByRate (matchingEntriesSpec store width height dwFlags) := by
  unfold collectRefreshRates matchingEntriesSpec
  rw [foldl_ite_filter (fun idx => rrTargetMatch store idx width height dwFlags)
      (AddRefreshRate store),
    foldl_addRefreshRate_eq_foldl_rrInsert store,
    foldl_rrInsert_eq_dedup]
  have hall : ∀ (l : List REFRESHRATE), l.filter (rateFresh []) = l := by
    intro l
    apply List.filter_eq_self.mpr
    intro a _
    rfl
  rw [hall, List.nil_append]

theorem mem_of_mem_dedupFirstByRate :
    ∀ (n : Nat) (l : List REFRESHRATE), l.length ≤ n →
      ∀ e ∈ dedupFirstByRate l, e ∈ l := by
  intro n
  induction n with
  | zero =>
      intro l hl e he
      rw [List.length_eq_zero.mp (Nat.le_zero.mp hl)] at he ⊢
      simp [dedupFirstByRate] at he
  | succ n ih =>
      intro l hl e he
      cases l with
      | nil => simp [dedupFirstByRate] at he
      | cons r rs =>
          rw [dedupFirstByRate] at he
          rcases List.mem_cons.mp he with rfl | he'
          · exact List.mem_cons_self _ _
          · have hlen : (rs.filter
                (fun y => decide (¬ y.RefreshRate = r.RefreshRate))).length ≤ n :=
              le_trans (List.length_filter_le _ _) (by simpa using hl)
            exact List.mem_cons_of_mem r
              (List.mem_filter.mp (ih _ hlen e he')).1

theorem matchingEntriesSpec_index_ge (store : List RESOLUTION_INFO)
    (width height : Int) (dwFlags : Nat) :
    ∀ e ∈ matchingEntriesSpec store width height dwFlags,
      RES_DESKTOP ≤ e.ResInfo_Index := by
  intro e he
  unfold matchingEntriesSpec at he
  obtain ⟨i, hi, rfl⟩ := List.mem_map.mp he
  have : i ∈ List.range' RES_DESKTOP (store.length - RES_DESKTOP) :=
    List.mem_of_mem_filter hi
  exact (List.mem_range'_1.mp this).1

/-- C7: for every store and target mode, `RefreshRates` returns exactly the
rates of the records matching the target — scanned from `RES_DESKTOP` onward,
never from index 0 — with exact-duplicate rates merged so the first-scanned
record of each rate supplies the kept entry's index (no replacement): the
result is a permutation (the final sort) of that first-occurrence merge, and
every returned index is ≥ `RES_DESKTOP`. -/
theorem spec_c7_refreshRates_collection :
    ∀ (store : List RESOLUTION_INFO) (width height : Int) (dwFlags : Nat),
      (RefreshRates store width height dwFlags).Perm
          (dedupFirstByRate (matchingEntriesSpec store width height dwFlags))
      ∧ ∀ e ∈ RefreshRates store width height dwFlags,
          RES_DESKTOP ≤ e.ResInfo_Index := by
  intro store width height dwFlags
  have hperm : (RefreshRates store width height dwFlags).Perm
      (dedupFirstByRate (matchingEntriesSpec store width height dwFlags)) := by
    unfold RefreshRates
    rw [collectRefreshRates_eq_dedup]
    exact sortWith_perm _ _
  refine ⟨hperm, ?_⟩
  intro e he
  have hd : e ∈ dedupFirstByRate (matchingEntriesSpec store width height dwFlags) :=
    hperm.mem_iff.mp he
  exact matchingEntriesSpec_index_ge store width height dwFlags e
    (mem_of_mem_dedupFirstByRate _ _ (le_refl _) e hd)

/-- Witness for C7: the theorem applied to the concrete store `c7store` and
target 1920×1080 with flags 0; the entry kept for rate 60 is the desktop
record at index `RES_DESKTOP` = 16, and its index is ≥ `RES_DESKTOP`. -/
theorem spec_c7_witness :
    (RefreshRates c7store 1920 1080 0).Perm
        (dedupFirstByRate (matchingEntriesSpec c7store 1920 1080 0))
      ∧ RES_DESKTOP ≤ (⟨60, RES_DESKTOP⟩ : REFRESHRATE).ResInfo_Index :=
  ⟨(spec_c7_refreshRates_collection c7store 1920 1080 0).1,
   (spec_c7_refreshRates_collection c7store 1920 1080 0).2
     ⟨60, RES_DESKTOP⟩ (by decide)⟩

/- ## C8 and C10: the render loop -/

theorem frameMove_injective : Function.Injective RenderEvent.frameMove := by
  intro a b hab
  cases hab
  rfl

theorem observableEvent_frameMove (c : Nat) :
    observableEvent (RenderEvent.frameMove c) = true := rfl

/-- C8: one `DriveRenderLoop` call performs, observably, exactly one
message-pump step followed by each currently-registered participant's
`FrameMove` exactly once per registration in registration order;
registration appends, so with A then B registered A is advanced before B and
a participant registered twice is driven twice (the count of its `FrameMove`
events equals its registration count). -/
theorem spec_c8_driveRenderLoop_order :
    ∀ (s : WinSystemState) (a b c : Nat),
      ((DriveRenderLoopTrace s).filter observableEvent
          = RenderEvent.messagePump :: s.renderLoopClients.map RenderEvent.frameMove)
      ∧ (RegisterRenderLoop s a).renderLoopClients = s.renderLoopClients ++ [a]
      ∧ ((DriveRenderLoopTrace (RegisterRenderLoop (RegisterRenderLoop s a) b)).filter
            observableEvent
          = RenderEvent.messagePump ::
              ((s.renderLoopClients ++ [a, b]).map RenderEvent.frameMove))
      ∧ (DriveRenderLoopTrace s).count (RenderEvent.frameMove c)
          = s.renderLoopClients.count c := by
  have hfilter : ∀ s : WinSystemState,
      (DriveRenderLoopTrace s).filter observableEvent
        = RenderEvent.messagePump :: s.renderLoopClients.map RenderEvent.frameMove := by
    intro s
    have h2 : (s.renderLoopClients.map RenderEvent.frameMove).filter observableEvent
        = s.renderLoopClients.map RenderEvent.frameMove := by
      apply List.filter_eq_self.mpr
      intro e he
      obtain ⟨x, -, rfl⟩ := List.mem_map.mp he
      rfl
    simp only [DriveRenderLoopTrace, List.filter_cons, List.filter_append, h2]
    norm_num [observableEvent]
  intro s a b c
  refine ⟨hfilter s, rfl, ?_, ?_⟩
  · rw [hfilter]
    simp [RegisterRenderLoop, List.append_assoc]
  · simp only [DriveRenderLoopTrace, List.count_cons, List.count_append]
    rw [List.count_map_of_injective _ _ frameMove_injective]
    simp

theorem count_lock_in_frameMoves (l : List Nat) :
    (l.map RenderEvent.frameMove).count RenderEvent.lockAcquire = 0
      ∧ (l.map RenderEvent.frameMove).count RenderEvent.lockRelease = 0 := by
  constructor <;>
    · rw [List.count_eq_zero]
      simp

/-- C10 amended: in every `DriveRenderLoop` execution the render-loop lock
IS held at every `FrameMove` invocation — the critical section spans the
whole iteration-and-drive pass, so the callbacks run under the lock (a
re-entrant register/unregister from a callback is not protected against). -/
theorem spec_c10_amended_lock_held :
    ∀ (s : WinSystemState) (k c : Nat),
      (DriveRenderLoopTrace s)[k]? = some (RenderEvent.frameMove c) →
      lockHeldAt (DriveRenderLoopTrace s) k := by
  intro s k c hk
  match k with
  | 0 => simp [DriveRenderLoopTrace] at hk
  | 1 => simp [DriveRenderLoopTrace] at hk
  | m + 2 =>
      have hk' : (s.renderLoopClients.map RenderEvent.frameMove
          ++ [RenderEvent.lockRelease])[m]? = some (RenderEvent.frameMove c) := by
        simpa [DriveRenderLoopTrace] using hk
      have hm : m < s.renderLoopClients.length := by
        rcases lt_trichotomy m s.renderLoopClients.length with hlt | heq | hgt
        · exact hlt
        · rw [heq] at hk'
          rw [List.getElem?_append_right (by simp)] at hk'
          simp at hk'
        · rw [List.getElem?_eq_none (by simp; omega)] at hk'
          exact absurd hk' (by simp)
      have htake : (DriveRenderLoopTrace s).take (m + 2)
          = RenderEvent.messagePump :: RenderEvent.lockAcquire ::
              ((s.renderLoopClients.take m).map RenderEvent.frameMove) := by
        simp only [DriveRenderLoopTrace, List.take_succ_cons]
        rw [List.take_append_of_le_length (by simp; omega), ← List.map_take]
      obtain ⟨hca, hcr⟩ := count_lock_in_frameMoves (s.renderLoopClients.take m)
      have hzero : ((DriveRenderLoopTrace s).take (m + 2)).count
          RenderEvent.lockRelease = 0 := by
        rw [htake]
        simp only [List.count_cons, hcr]
        simp
      have hone : ((DriveRenderLoopTrace s).take (m + 2)).count
          RenderEvent.lockAcquire = 1 := by
        rw [htake]
        simp only [List.count_cons, hca]
        simp
      unfold lockHeldAt
      rw [hzero, hone]
      exact Nat.zero_lt_one

/-- Witness for C10 amended: with clients [5, 9], the `FrameMove` of client 9
at trace position 3 runs with the lock held. -/
theorem spec_c10_witness :
    lockHeldAt (DriveRenderLoopTrace ⟨[5, 9]⟩) 3 :=
  spec_c10_amended_lock_held ⟨[5, 9]⟩ 3 9 (by decide)

/-- Witness for C1 amended: the amended invariant instantiated at the
concrete store `c1store`. -/
theorem spec_c1_amended_witness :
    (((buildResolutions c1store 0).tail).map resKey).Nodup
      ∧ (ScreenResolutions c1store 0).Perm (buildResolutions c1store 0) :=
  spec_c1_amended_key_uniqueness c1store 0

/-- Witness for C6: the empty-input failure instantiated at a concrete
store. -/
theorem spec_c6_witness :
    DefaultRefreshRate c5store [] = none
      ∧ ¬ ∃ r : REFRESHRATE, DefaultRefreshRate c5store [] = some r :=
  spec_c6_defaultRefreshRate_empty_fails c5store
